import Mathlib

/-!
Formal model of the trace-visualizer core of `vscode-clang-time-tracer`
(`src/canvas.ts`, plus the host-side `copyPath` handler of the extension
entry point). Numbers are modelled as `ℚ` (the source uses JS doubles but
performs only field arithmetic on the values the theorems below speak
about); JS `Record` objects are modelled as insertion-ordered association
lists, and JS arrays used as stacks are modelled as lists whose head is
the array's last element (the top of the stack).
-/

namespace ClangTracer

/-! ### Configuration constants (`CONFIG`, canvas.ts lines 3-26) -/

def MARGIN_SIDE : ℚ := 40

def TIMELINE_HEIGHT : ℚ := 40

def MIN_TICK_GAP : ℚ := 160

def ZOOM_SENSITIVITY : ℚ := 0.15

def MAX_SCALE : ℚ := 10000

def DEFAULT_ROW_HEIGHT : ℚ := 24

def DEFAULT_TRACK_SPACING : ℚ := 30

/-! ### Data model (canvas.ts lines 30-67) -/

/-- `TraceEvent` (canvas.ts lines 30-41). `tid` is stored after the
source's `e.tid.toString()` conversion, `none` meaning the JS field was
`undefined`; `detail` models `e.args?.detail`. -/
structure TraceEvent where
  ph : String
  tid : Option String
  cat : Option String
  name : String
  ts : ℚ
  dur : Option ℚ
  detail : Option String
deriving DecidableEq

/-- `ProcessedEvent` (canvas.ts lines 43-51); `endTime` models the source
field `end` (a reserved word in Lean). -/
structure ProcessedEvent where
  name : String
  detail : String
  start : ℚ
  dur : ℚ
  endTime : ℚ
  tid : String
  depth : ℕ
deriving DecidableEq

/-- `Thread` (canvas.ts lines 53-59). -/
structure Thread where
  tid : String
  sourceEvents : List ProcessedEvent
  mainEvents : List ProcessedEvent
  maxSourceDepth : ℕ
  maxMainDepth : ℕ
deriving DecidableEq

/-- `ViewState` (canvas.ts lines 61-67). -/
structure ViewState where
  x : ℚ
  y : ℚ
  scale : ℚ
  rowHeight : ℚ
  trackSpacing : ℚ
deriving DecidableEq

/-- The module-level mutable state of canvas.ts (lines 78-90) that the
claims refer to, together with the canvas dimensions. -/
structure World where
  threads : List Thread
  maxTraceTime : ℚ
  totalContentHeight : ℚ
  view : ViewState
  canvasWidth : ℚ
  canvasHeight : ℚ
deriving DecidableEq

/-! ### JS `Record` objects as insertion-ordered association lists -/

/-- Lookup of `m[k]`; `none` models `undefined`. -/
def recLookup {α : Type} : List (String × α) → String → Option α
  | [], _ => none
  | (k', v) :: rest, k => if k' = k then some v else recLookup rest k

/-- Assignment `m[k] = v`: replaces the value of an existing key in
place, otherwise appends the new key at the end (JS insertion order). -/
def recSet {α : Type} : List (String × α) → String → α → List (String × α)
  | [], k, v => [(k, v)]
  | (k', v') :: rest, k, v =>
    if k' = k then (k, v) :: rest else (k', v') :: recSet rest k v

/-! ### `preprocess` — event ingestion (canvas.ts lines 114-166) -/

/-- Lane pair of one `threadMap` entry: `(sources, main)`. -/
abbrev Lanes := List ProcessedEvent × List ProcessedEvent

/-- Accumulator state of the `events.forEach` loop in `preprocess`:
`threadMap`, `openEvents` and the running `maxTraceTime`. -/
structure IngestState where
  threadMap : List (String × Lanes)
  openEvents : List (String × List TraceEvent)
  maxTraceTime : ℚ
deriving DecidableEq

/-- The composite stack key `` `${tidStr}-${e.name}` `` (lines 144, 149). -/
def eventKey (tidStr name : String) : String := tidStr ++ "-" ++ name

/-- `const isSource = e.cat === "Source" || e.name === "Source"` (line 126). -/
def isSourceEvent (e : TraceEvent) : Bool :=
  e.cat == some "Source" || e.name == "Source"

/-- `if (!threadMap[tidStr]) { threadMap[tidStr] = { sources: [], main: [] } }`
(line 124). -/
def ensureThread (s : IngestState) (tidStr : String) : IngestState :=
  match recLookup s.threadMap tidStr with
  | some _ => s
  | none => { s with threadMap := recSet s.threadMap tidStr ([], []) }

/-- `threadMap[tidStr].sources.push(proc)` / `.main.push(proc)`
(lines 139-140, 161-162). -/
def pushLane (s : IngestState) (tidStr : String) (isSource : Bool)
    (p : ProcessedEvent) : IngestState :=
  let lanes := (recLookup s.threadMap tidStr).getD ([], [])
  let lanes' : Lanes :=
    if isSource then (lanes.1 ++ [p], lanes.2) else (lanes.1, lanes.2 ++ [p])
  { s with threadMap := recSet s.threadMap tidStr lanes' }

/-- One iteration of the `events.forEach` body (canvas.ts lines 121-166). -/
def stepEvent (s : IngestState) (e : TraceEvent) : IngestState :=
  match e.tid with
  | none => s
  | some tidStr =>
    let s := ensureThread s tidStr
    let isSource := isSourceEvent e
    if e.ph = "X" then
      let endT := e.ts + e.dur.getD 0
      let proc : ProcessedEvent :=
        ⟨e.name, e.detail.getD "", e.ts, e.dur.getD 0, endT, tidStr, 0⟩
      let s := pushLane s tidStr isSource proc
      { s with maxTraceTime := if endT > s.maxTraceTime then endT else s.maxTraceTime }
    else if e.ph = "b" then
      let key := eventKey tidStr e.name
      let stack := (recLookup s.openEvents key).getD []
      { s with openEvents := recSet s.openEvents key (e :: stack) }
    else if e.ph = "e" then
      let key := eventKey tidStr e.name
      match (recLookup s.openEvents key).getD [] with
      | [] => s
      | startEvent :: rest =>
        let proc : ProcessedEvent :=
          ⟨startEvent.name, startEvent.detail.getD "", startEvent.ts,
            e.ts - startEvent.ts, e.ts, tidStr, 0⟩
        let s := { s with openEvents := recSet s.openEvents key rest }
        let s := pushLane s tidStr isSource proc
        { s with maxTraceTime := if e.ts > s.maxTraceTime then e.ts else s.maxTraceTime }
    else s

/-- Fresh accumulators of `preprocess` (lines 116-119: empty `threadMap`
and `openEvents`, `maxTraceTime = 0`). -/
def initIngest : IngestState := ⟨[], [], 0⟩

/-- The whole `events.forEach` pass of `preprocess`. -/
def ingest (events : List TraceEvent) : IngestState :=
  events.foldl stepEvent initIngest

/-! ### `computeDepth` (canvas.ts lines 171-184) -/

/-- The comparator `(a, b) => a.start - b.start || b.dur - a.dur` of
line 172, as a "may precede" Boolean relation: `a` may come before `b`
iff the comparator is not positive on `(a, b)`. -/
def jsSortLe (a b : ProcessedEvent) : Bool :=
  decide (a.start < b.start) || (decide (a.start = b.start) && decide (b.dur ≤ a.dur))

/-- Insert `x` after every element `y` of an already-sorted list with
`le y x`; together with `stableSort` this is the unique stable sort by
the comparator, which is what `Array.prototype.sort` (ES2019, stable)
performs on line 172. -/
def stableInsert {α : Type} (le : α → α → Bool) (x : α) : List α → List α
  | [] => [x]
  | y :: ys => if le y x then y :: stableInsert le x ys else x :: y :: ys

/-- Stable sort by `le` (insertion sort, processing the list left to
right, ties keeping the original order). -/
def stableSort {α : Type} (le : α → α → Bool) (l : List α) : List α :=
  l.foldl (fun acc x => stableInsert le x acc) []

/-- The `evs.forEach` scan of `computeDepth` (lines 173-182): the first
argument is the remaining sorted events, the second the stack (head =
top = `stack[stack.length - 1]`), the third the running `maxD`.  Returns
the events with their `depth` fields assigned, and the final `maxD`. -/
def depthScan : List ProcessedEvent → List ProcessedEvent → ℕ →
    List ProcessedEvent × ℕ
  | [], _, maxD => ([], maxD)
  | ev :: rest, stack, maxD =>
    let stack' := stack.dropWhile (fun top => decide (ev.start ≥ top.endTime))
    let ev' := { ev with depth := stack'.length }
    let maxD' := max maxD ev'.depth
    let r := depthScan rest (ev' :: stack') maxD'
    (ev' :: r.1, r.2)

/-- `computeDepth` (lines 171-184): sorts the lane's events in place and
assigns depths; returns the (sorted, depth-assigned) events and `maxD`. -/
def computeDepth (evs : List ProcessedEvent) : List ProcessedEvent × ℕ :=
  depthScan (stableSort jsSortLe evs) [] 0

/-- The `threads = Object.keys(threadMap).map(...)` construction
(canvas.ts lines 168-193).  Caveat: this model enumerates keys in pure
insertion order, while JS `Object.keys` lists integer-like keys (e.g.
"1") before string keys; only the order of the threads array can
differ, never its contents. -/
def buildThreads (m : List (String × Lanes)) : List Thread :=
  m.map (fun p =>
    let se := computeDepth p.2.1
    let me := computeDepth p.2.2
    ⟨p.1, se.1, me.1, se.2, me.2⟩)

/-- `updateTotalHeight` (canvas.ts lines 198-205). -/
def threadHeight (v : ViewState) (t : Thread) : ℚ :=
  20 + ((t.maxSourceDepth : ℚ) + 1) * v.rowHeight + 10 +
    ((t.maxMainDepth : ℚ) + 1) * v.rowHeight + v.trackSpacing

def updateTotalHeight (w : World) : World :=
  { w with totalContentHeight :=
      w.threads.foldl (fun acc t => acc + threadHeight w.view t) 0 }

/-- `preprocess` (canvas.ts lines 114-196): rebuilds `threads` and
`maxTraceTime` from scratch from the incoming dataset, then calls
`updateTotalHeight`. -/
def preprocess (w : World) (events : List TraceEvent) : World :=
  let s := ingest events
  updateTotalHeight
    { w with threads := buildThreads s.threadMap, maxTraceTime := s.maxTraceTime }

/-! ### Observation helpers over the ingestion state -/

/-- The `(sources, main)` lanes currently stored for a thread id
(`([], [])` when the thread does not exist yet). -/
def laneOf (s : IngestState) (tid : String) : Lanes :=
  (recLookup s.threadMap tid).getD ([], [])

/-- The open-`begin` stack stored for a composite key (head = top). -/
def openOf (s : IngestState) (key : String) : List TraceEvent :=
  (recLookup s.openEvents key).getD []

/-- All events of a `threadMap`, in insertion order. -/
def lanesFlat (m : List (String × Lanes)) : List ProcessedEvent :=
  m.flatMap (fun p => p.2.1 ++ p.2.2)

/-- All `ProcessedEvent`s emitted so far, in `threadMap` order. -/
def allEmitted (s : IngestState) : List ProcessedEvent :=
  lanesFlat s.threadMap

/-- `foldr max 0` over a list of rationals, the shape in which
`maxTraceTime` accumulates (starting from the reset value `0`). -/
def listQMax (l : List ℚ) : ℚ := l.foldr max 0

/-! ### `clampView` / `resetView` (canvas.ts lines 96-110, 207-228) -/

/-- `clampView` (canvas.ts lines 207-228). -/
def clampView (w : World) : World :=
  let marginY := TIMELINE_HEIGHT + 10
  let contentWidth := w.maxTraceTime * w.view.scale
  let availableWidth := w.canvasWidth
  let x1 :=
    if contentWidth > availableWidth - MARGIN_SIDE * 2 then
      let minX := availableWidth - contentWidth - MARGIN_SIDE
      let maxX := MARGIN_SIDE
      let a := if w.view.x > maxX then maxX else w.view.x
      if a < minX then minX else a
    else MARGIN_SIDE
  let minY := w.canvasHeight - w.totalContentHeight - 40
  let y1 :=
    if w.totalContentHeight > w.canvasHeight - marginY then
      let b := if w.view.y > marginY then marginY else w.view.y
      if b < minY then minY else b
    else marginY
  { w with view := { w.view with x := x1, y := y1 } }

/-- `resetView` (canvas.ts lines 96-110).  `clientWidth`/`innerHeight`
are the DOM dimensions read on lines 99-100; the trailing `render()`
call only repaints and does not change this state. -/
def resetView (w : World) (clientWidth innerHeight : ℚ) : World :=
  if w.maxTraceTime ≤ 0 then w
  else
    let w1 := { w with canvasWidth := clientWidth, canvasHeight := innerHeight }
    let marginY := TIMELINE_HEIGHT + 20
    let w2 := { w1 with view := { w1.view with
      scale := (w1.canvasWidth - MARGIN_SIDE * 2) / w1.maxTraceTime,
      x := MARGIN_SIDE,
      y := marginY } }
    clampView w2

/-! ### The wheel listener (canvas.ts lines 459-473) -/

/-- Lines 461-469 of the wheel listener: the zoom computation before the
`clampView()` call.  `deltaYPos` is `e.deltaY > 0` and `clientX` is
`e.clientX`. -/
def wheelZoom (w : World) (deltaYPos : Bool) (clientX : ℚ) : World :=
  let delta := if deltaYPos then 1 - ZOOM_SENSITIVITY else 1 + ZOOM_SENSITIVITY
  let mouseWorldX := (clientX - w.view.x) / w.view.scale
  let minScale := (w.canvasWidth - MARGIN_SIDE * 2) / w.maxTraceTime
  let newScale := max minScale (min (w.view.scale * delta) MAX_SCALE)
  { w with view := { w.view with
      scale := newScale,
      x := clientX - mouseWorldX * newScale } }

/-- The whole wheel listener (zoom computation followed by `clampView`;
the trailing `render()` does not change this state). -/
def onWheel (w : World) (deltaYPos : Bool) (clientX : ℚ) : World :=
  clampView (wheelZoom w deltaYPos clientX)

/-! ### Hit testing (canvas.ts lines 475-492, 531-536) -/

/-- `isHit` (canvas.ts lines 531-536). -/
def isHit (v : ViewState) (ev : ProcessedEvent) (mx my offsetY : ℚ) : Bool :=
  let x := ev.start * v.scale + v.x
  let w := max 1 (ev.dur * v.scale)
  let y := offsetY + (ev.depth : ℚ) * v.rowHeight
  decide (mx ≥ x) && decide (mx ≤ x + w) && decide (my ≥ y) &&
    decide (my ≤ y + (v.rowHeight - 1))

/-- The `for (const thread of threads)` loop of `getEventAtPosition`
(canvas.ts lines 477-491), with the running `currentY` accumulator. -/
def getEventAtPositionAux (v : ViewState) (mx my : ℚ) :
    List Thread → ℚ → Option ProcessedEvent
  | [], _ => none
  | t :: rest, currentY =>
    let sourceH := ((t.maxSourceDepth : ℚ) + 1) * v.rowHeight
    let mainH := ((t.maxMainDepth : ℚ) + 1) * v.rowHeight
    let sourceHit :=
      if currentY + 20 ≤ my ∧ my ≤ currentY + 20 + sourceH then
        t.sourceEvents.find? (fun ev => isHit v ev mx my (currentY + 20))
      else none
    match sourceHit with
    | some f => some f
    | none =>
      let mainOffsetY := currentY + 20 + sourceH + 10
      let mainHit :=
        if mainOffsetY ≤ my ∧ my ≤ mainOffsetY + mainH then
          t.mainEvents.find? (fun ev => isHit v ev mx my mainOffsetY)
        else none
      match mainHit with
      | some f => some f
      | none =>
        getEventAtPositionAux v mx my rest
          (currentY + 20 + sourceH + 10 + mainH + v.trackSpacing)

/-- `getEventAtPosition` (canvas.ts lines 475-492). -/
def getEventAtPosition (w : World) (mx my : ℚ) : Option ProcessedEvent :=
  getEventAtPositionAux w.view mx my w.threads w.view.y

/-! ### Rendering geometry (canvas.ts lines 294-381) -/

/-- An axis-aligned pixel rectangle. -/
structure Rect where
  x : ℚ
  y : ℚ
  w : ℚ
  h : ℚ
deriving DecidableEq

/-- The geometry of `drawEvent` (canvas.ts lines 294-307): the culling
test of line 299 and the rounded rectangle of lines 301-306 (colors,
text and the selection overlay carry no geometry and are omitted). -/
def drawEvent (v : ViewState) (canvasW canvasH : ℚ) (ev : ProcessedEvent)
    (rowOffsetY : ℚ) : Option Rect :=
  let x := ev.start * v.scale + v.x
  let w := ev.dur * v.scale
  let y := rowOffsetY + (ev.depth : ℚ) * v.rowHeight
  if x + w < 0 ∨ x > canvasW ∨ y + v.rowHeight < 0 ∨ y > canvasH then none
  else some ⟨x, y, max 0.5 w, v.rowHeight - 1⟩

/-- The event-bar pass of `render` (canvas.ts lines 346-378): walks the
threads with the `currentY` accumulator, applies the per-thread culling
of line 354, and collects every bar rectangle `drawEvent` paints. -/
def renderBarsAux (v : ViewState) (cw ch : ℚ) : List Thread → ℚ → List Rect
  | [], _ => []
  | t :: rest, currentY =>
    let sourceH := ((t.maxSourceDepth : ℚ) + 1) * v.rowHeight
    let mainH := ((t.maxMainDepth : ℚ) + 1) * v.rowHeight
    let totalThreadH := 20 + sourceH + 10 + mainH + v.trackSpacing
    if currentY + totalThreadH < TIMELINE_HEIGHT ∨ currentY > ch then
      renderBarsAux v cw ch rest (currentY + totalThreadH)
    else
      (t.sourceEvents.filterMap (fun ev => drawEvent v cw ch ev (currentY + 20))) ++
        (t.mainEvents.filterMap
          (fun ev => drawEvent v cw ch ev (currentY + 20 + sourceH + 10))) ++
        renderBarsAux v cw ch rest (currentY + totalThreadH)

/-- All event-bar rectangles one `render()` call paints. -/
def renderBars (w : World) : List Rect :=
  renderBarsAux w.view w.canvasWidth w.canvasHeight w.threads w.view.y

/-! ### The time ruler (canvas.ts lines 246-292) -/

/-- The tick-step selection of `renderTimeline` (canvas.ts lines
255-264).  `Math.floor(Math.log10 g)` is `Int.log 10 g` for `g > 0`
(for `g ≤ 0`, unreachable from a positive scale, the JS code would
produce `NaN`; `Int.log` returns `0` there). -/
def tickStep (scale : ℚ) : ℚ :=
  let timePerPixel := 1 / scale
  let targetTimeGap := MIN_TICK_GAP * timePerPixel
  let lg := Int.log 10 targetTimeGap
  let pw : ℚ := (10 : ℚ) ^ lg
  if targetTimeGap / pw > 5 then 5 * pw
  else if targetTimeGap / pw > 2.5 then 2.5 * pw
  else if targetTimeGap / pw > 2 then 2 * pw
  else pw

/-- One drawing command of `renderTimeline`; labels record the tick time
and the `useMs` flag instead of the formatted text. -/
inductive DrawCmd where
  | fillRect (x y w h : ℚ)
  | tickLine (x : ℚ)
  | tickLabel (t : ℚ) (useMs : Bool) (x : ℚ)
  | borderLine (y : ℚ)
deriving DecidableEq

/-- Number of iterations of the `for (let t = firstTick; t <= endTime;
t += step)` loop of line 272 (for `step ≤ 0`, unreachable from a
positive scale, the JS loop would not terminate; this model returns 0). -/
def tickCount (firstTick endT step : ℚ) : ℕ :=
  if 0 < step ∧ firstTick ≤ endT then (⌊(endT - firstTick) / step⌋ + 1).toNat else 0

/-- `renderTimeline` (canvas.ts lines 246-292): the unconditional
background fill of lines 247-248, the tick loop of lines 272-285 and the
bottom border of lines 287-291.  Label centering
(`x - textWidth / 2`) depends on font metrics and is abstracted to the
tick abscissa. -/
def renderTimeline (w : World) : List DrawCmd :=
  let bg := DrawCmd.fillRect 0 0 w.canvasWidth TIMELINE_HEIGHT
  let step := tickStep w.view.scale
  let startTime := (0 - w.view.x) / w.view.scale
  let endT := (w.canvasWidth - w.view.x) / w.view.scale
  let firstTick := (⌈startTime / step⌉ : ℚ) * step
  let useMs := decide (step ≥ 1000)
  let ticks := (List.range (tickCount firstTick endT step)).flatMap (fun i =>
    let t := firstTick + (i : ℚ) * step
    let x := t * w.view.scale + w.view.x
    if x < 0 ∨ x > w.canvasWidth then []
    else [DrawCmd.tickLine x, DrawCmd.tickLabel t useMs x])
  bg :: ticks ++ [DrawCmd.borderLine TIMELINE_HEIGHT]

/-! ### The copy-path action (canvas.ts lines 544-548; host handler in
the extension entry point, `case 'copyPath'`) -/

/-- An outbound `postMessage` payload. -/
structure OutMessage where
  command : String
  path : String
deriving DecidableEq

/-- The `menu-copy-path` click listener (canvas.ts lines 544-548):
`if (rightClickedEvent?.detail && vscode) postMessage({command:
'copyPath', path: rightClickedEvent.detail})`.  JS string truthiness
makes the guard "detail non-empty", and `vscodeAvailable` models the
`vscode` handle being non-null. -/
def onMenuCopyPath (rightClickedEvent : Option ProcessedEvent)
    (vscodeAvailable : Bool) : Option OutMessage :=
  match rightClickedEvent with
  | some ev =>
    if ev.detail ≠ "" ∧ vscodeAvailable = true then
      some ⟨"copyPath", ev.detail⟩
    else none
  | none => none

/-- The character class of the host's `path.search(/:|<| /)`. -/
def isCutChar (c : Char) : Bool := c == ':' || c == '<' || c == ' '

/-- JS `String.prototype.search`: index of the first character matching
the class, or `none` (JS `-1`). -/
def jsSearch (p : Char → Bool) : List Char → Option ℕ
  | [] => none
  | c :: cs => if p c then some 0 else (jsSearch p cs).map (· + 1)

/-- JS `String.prototype.trim` on a character list. -/
def strTrim (cs : List Char) : List Char :=
  ((cs.dropWhile Char.isWhitespace).reverse.dropWhile Char.isWhitespace).reverse

/-- The cleaning done by the host-side `copyPath` handler:
`endIdx = path.search(/:|<| /)`, truncate there when found, then
`trim()`. -/
def copyPathClean (p : String) : String :=
  let cs := p.toList
  let clean :=
    match jsSearch isCutChar cs with
    | some i => cs.take i
    | none => cs
  String.mk (strTrim clean)

/-- The host-side `case 'copyPath'` handler: the string written to the
clipboard for a received message (`none` for other commands). -/
def copyPathHandler (m : OutMessage) : Option String :=
  if m.command = "copyPath" then some (copyPathClean m.path) else none

/-! ### Spec-side definitions (used only to compare against the code) -/

/-- Modelled from the spec: the lane bands `getEventAtPosition` scans,
in rendering order — for each thread the source band `[currentY + 20,
currentY + 20 + sourceH]` and the main band `[mainOffsetY, mainOffsetY +
mainH]`, as `(offset, height, events)` triples. -/
def laneEntries (v : ViewState) : List Thread → ℚ → List (ℚ × ℚ × List ProcessedEvent)
  | [], _ => []
  | t :: rest, y =>
    let sourceH := ((t.maxSourceDepth : ℚ) + 1) * v.rowHeight
    let mainH := ((t.maxMainDepth : ℚ) + 1) * v.rowHeight
    (y + 20, sourceH, t.sourceEvents) ::
      (y + 20 + sourceH + 10, mainH, t.mainEvents) ::
      laneEntries v rest (y + 20 + sourceH + 10 + mainH + v.trackSpacing)

/-- Modelled from the spec: "the first event, scanning threads and lanes
in rendering order, whose [hit] bounding box contains the pointer",
restricted to lanes whose band contains the pointer's `y`. -/
def firstHit (v : ViewState) (mx my : ℚ)
    (entries : List (ℚ × ℚ × List ProcessedEvent)) : Option ProcessedEvent :=
  entries.findSome? (fun ent =>
    if ent.1 ≤ my ∧ my ≤ ent.1 + ent.2.1 then
      ent.2.2.find? (fun ev => isHit v ev mx my ent.1)
    else none)

/-- Modelled from the spec: "sorts by start ascending with ties broken
by duration descending", as a may-precede relation. -/
def specSortLe (a b : ProcessedEvent) : Bool :=
  decide (a.start < b.start ∨ (a.start = b.start ∧ b.dur ≤ a.dur))

/-- Modelled from the spec (claim C2): sort by `specSortLe`, then scan
with a stack, popping while the stack top's end is ≤ the current start,
assigning the stack size as depth and tracking the maximum. -/
def depthAssignSpec (evs : List ProcessedEvent) : List ProcessedEvent × ℕ :=
  depthScan (stableSort specSortLe evs) [] 0

/-- The ruler-step candidate multipliers, ascending. -/
def specCandidates : List ℚ := [1, 2, 2.5, 5]

/-- Modelled from the spec (claim C7's primary formulation): "the
smallest candidate whose multiplier is greater than or equal to the
ratio targetGap/pow" (when no candidate qualifies the claim names none;
the largest, `5 × pow`, is used to give the claim its best reading). -/
def specStepSmallestGE (scale : ℚ) : ℚ :=
  let targetTimeGap := MIN_TICK_GAP / scale
  let pw : ℚ := (10 : ℚ) ^ Int.log 10 targetTimeGap
  let ratio := targetTimeGap / pw
  match specCandidates.find? (fun c => decide (ratio ≤ c)) with
  | some c => c * pw
  | none => 5 * pw

/-- Modelled from the amended claim C7: the largest candidate whose
multiplier is strictly below the ratio `targetGap/pow`, defaulting to
`1 × pow` when no candidate is below it. -/
def specStepLargestBelow (scale : ℚ) : ℚ :=
  let targetTimeGap := MIN_TICK_GAP / scale
  let pw : ℚ := (10 : ℚ) ^ Int.log 10 targetTimeGap
  let ratio := targetTimeGap / pw
  ((specCandidates.filter (fun c => decide (c < ratio))).foldl max 1) * pw

/-! ### Invariants and concrete example inputs -/

/-- The running `maxTraceTime` is the maximum (against the reset value
`0`) of the end times of the events emitted so far. -/
def IngestInv (s : IngestState) : Prop :=
  s.maxTraceTime = listQMax ((allEmitted s).map ProcessedEvent.endTime)

/-- A base world: empty layout, the initial `view` of canvas.ts lines
84-90, a 500×600 canvas. -/
def exWorld : World := ⟨[], 0, 0, ⟨MARGIN_SIDE, 60, 0.1, 24, 30⟩, 500, 600⟩

/-- Complete event A(thread 1, start 0, duration 100) of the C2 example. -/
def xA : TraceEvent := ⟨"X", some "1", none, "A", 0, some 100, none⟩

/-- Complete event B(thread 1, start 10, duration 20) of the C2 example. -/
def xB : TraceEvent := ⟨"X", some "1", none, "B", 10, some 20, none⟩

/-- A `begin` on thread id `"1-a"` named `"b"`: its composite stack key
is the string `"1-a-b"`. -/
def bDash : TraceEvent := ⟨"b", some "1-a", none, "b", 5, none, none⟩

/-- An `end` on thread id `"1"` named `"a-b"`: a different
(thread id, name) pair, but the same composite key `"1-a-b"`. -/
def eDash : TraceEvent := ⟨"e", some "1", none, "a-b", 15, none, none⟩

/-- begin(thread 1, "F", t = 5). -/
def bF : TraceEvent := ⟨"b", some "1", none, "F", 5, none, none⟩

/-- end(thread 1, "F", t = 15). -/
def eF : TraceEvent := ⟨"e", some "1", none, "F", 15, none, none⟩

/-- An ingestion state whose only open stack holds `bF` under key
`"1-F"`. -/
def sOpenF : IngestState := ⟨[], [("1-F", [bF])], 0⟩

/-- A world about to be zoomed: full-fit scale 1 for a 1000 µs trace on
a 1080-px canvas, with `x = 0` (not yet pinned to the margin). -/
def zoomWorld : World := ⟨[], 1000, 0, ⟨0, 60, 1, 24, 30⟩, 1080, 600⟩

/-- A world whose content (width 1000) overflows its 500-px canvas and
whose `x` is far beyond the right clamp bound. -/
def clampWorld : World := ⟨[], 1000, 0, ⟨999, 0, 1, 24, 30⟩, 500, 600⟩

/-- A zero-duration event at t = 100 on thread 1: its drawn bar is 0.5
px wide, its hit box 1 px wide. -/
def pZero : ProcessedEvent := ⟨"A", "", 100, 0, 100, "1", 0⟩

/-- A world showing only `pZero`, at scale 1 with origin `x = 0`,
`y = 0`. -/
def hitWorld : World :=
  ⟨[⟨"1", [], [pZero], 0, 0⟩], 100, 108, ⟨0, 0, 1, 24, 30⟩, 500, 600⟩

/-- A zero-extent complete event (ts 0, duration 0) on thread 1. -/
def xZero : TraceEvent := ⟨"X", some "1", none, "A", 0, some 0, none⟩

/-- An event whose detail carries a `:line:col` suffix. -/
def pDetail : ProcessedEvent := ⟨"A", "foo.cpp:10:5", 0, 1, 1, "1", 0⟩

/-- The `ProcessedEvent` materialized from a `complete` event
(canvas.ts lines 129-138). -/
def procX (e : TraceEvent) (tidStr : String) : ProcessedEvent :=
  ⟨e.name, e.detail.getD "", e.ts, e.dur.getD 0, e.ts + e.dur.getD 0, tidStr, 0⟩

/-- The `ProcessedEvent` emitted when an `end` event `e` pops the begin
event `b` (canvas.ts lines 152-160). -/
def procE (b e : TraceEvent) (tidStr : String) : ProcessedEvent :=
  ⟨b.name, b.detail.getD "", b.ts, e.ts - b.ts, e.ts, tidStr, 0⟩

/-- A begin sitting at bottom-position `n` of the stack for key `k`
(i.e. with `n` entries below it) is popped by an event `e` exactly when
`e` is an `end` whose composite key is `k` and the stack currently has
length `n + 1` (the begin is on top) — pops only ever take the top, so
entries below an unpopped begin are unreachable. -/
def popTrigger (k : String) (n : ℕ) (s : IngestState) (e : TraceEvent) : Bool :=
  match e.tid with
  | some t =>
    decide (e.ph = "e") && decide (eventKey t e.name = k) &&
      decide ((openOf s k).length = n + 1)
  | none => false

/-- Whether a begin at bottom-position `n` of stack `k` is popped at
some point while folding the remaining events from state `s`. -/
def beginPopped (k : String) (n : ℕ) : List TraceEvent → IngestState → Bool
  | [], _ => false
  | e :: es, s => popTrigger k n s e || beginPopped k n es (stepEvent s e)

/-- Simulation relation between a run whose stack for key `k` still
holds the (never yet popped) begin `b` with `n` entries below it, and
the same run with `b` removed: all lane lists and `maxTraceTime` agree,
the `k` stack differs exactly by `b`, and all other stacks agree. -/
def RelN (k : String) (b : TraceEvent) (n : ℕ) (s s' : IngestState) : Prop :=
  (∀ t, laneOf s t = laneOf s' t) ∧
  s.maxTraceTime = s'.maxTraceTime ∧
  (∃ P Q, Q.length = n ∧ openOf s k = P ++ b :: Q ∧ openOf s' k = P ++ Q) ∧
  (∀ k', k' ≠ k → openOf s k' = openOf s' k')

/-! ### Association-list lemmas -/

theorem recLookup_recSet_self {α : Type} (m : List (String × α)) (k : String) (v : α) :
    recLookup (recSet m k v) k = some v := by
  induction m with
  | nil => simp [recSet, recLookup]
  | cons p rest ih =>
    obtain ⟨a, b⟩ := p
    by_cases h : a = k
    · simp [recSet, recLookup, h]
    · simp [recSet, recLookup, h, ih]

theorem recLookup_recSet_ne {α : Type} (m : List (String × α)) {k k' : String} (v : α)
    (h : k' ≠ k) : recLookup (recSet m k v) k' = recLookup m k' := by
  induction m with
  | nil => simp [recSet, recLookup, Ne.symm h]
  | cons p rest ih =>
    obtain ⟨a, b⟩ := p
    by_cases hak : a = k
    · subst hak
      simp [recSet, recLookup, Ne.symm h]
    · simp [recSet, recLookup, hak, ih]

theorem recSet_of_lookup_none {α : Type} {m : List (String × α)} {k : String}
    (h : recLookup m k = none) (v : α) : recSet m k v = m ++ [(k, v)] := by
  induction m with
  | nil => rfl
  | cons p rest ih =>
    obtain ⟨a, b⟩ := p
    have hak : ¬ a = k := by
      intro hh
      simp [recLookup, hh] at h
    have h' : recLookup rest k = none := by simpa [recLookup, hak] using h
    simp [recSet, hak, ih h']

theorem lanesFlat_split {m : List (String × Lanes)} {k : String} {lv : Lanes}
    (h : recLookup m k = some lv) :
    ∃ A B, lanesFlat m = A ++ (lv.1 ++ lv.2) ++ B ∧
      ∀ lv' : Lanes, lanesFlat (recSet m k lv') = A ++ (lv'.1 ++ lv'.2) ++ B := by
  induction m with
  | nil => simp [recLookup] at h
  | cons p rest ih =>
    obtain ⟨a, b⟩ := p
    by_cases hak : a = k
    · have hb : b = lv := by simpa [recLookup, hak] using h
      subst hb
      exact ⟨[], lanesFlat rest, by simp [lanesFlat],
        fun lv' => by simp [lanesFlat, recSet, hak]⟩
    · have h' : recLookup rest k = some lv := by simpa [recLookup, hak] using h
      obtain ⟨A, B, h1, h2⟩ := ih h'
      refine ⟨(b.1 ++ b.2) ++ A, B, ?_, fun lv' => ?_⟩
      · simp [lanesFlat, List.flatMap_cons] at h1 ⊢
        simp [h1, List.append_assoc]
      · have := h2 lv'
        simp [lanesFlat, recSet, hak, List.flatMap_cons] at this ⊢
        simp [this, List.append_assoc]

/-! ### Max-fold lemmas -/

theorem foldr_max_middle (xs ys : List ℚ) (z p : ℚ) :
    (xs ++ p :: ys).foldr max z = max p ((xs ++ ys).foldr max z) := by
  induction xs with
  | nil => simp
  | cons x xs ih => simp [ih, max_left_comm]

theorem listQMax_map_middle (f : ProcessedEvent → ℚ) (A B : List ProcessedEvent)
    (p : ProcessedEvent) :
    listQMax ((A ++ p :: B).map f) = max (f p) (listQMax ((A ++ B).map f)) := by
  simp only [listQMax, List.map_append, List.map_cons]
  exact foldr_max_middle _ _ _ _

theorem ite_gt_eq_max (a M : ℚ) : (if a > M then a else M) = max a M := by
  rcases le_or_lt a M with h | h
  · rw [if_neg (by simpa using not_lt.2 h), max_eq_right h]
  · rw [if_pos h, max_eq_left h.le]

/-! ### `ensureThread` and `pushLane` effects -/

theorem ensureThread_openEvents (s : IngestState) (t : String) :
    (ensureThread s t).openEvents = s.openEvents := by
  cases h : recLookup s.threadMap t <;> simp [ensureThread, h]

theorem ensureThread_maxTraceTime (s : IngestState) (t : String) :
    (ensureThread s t).maxTraceTime = s.maxTraceTime := by
  cases h : recLookup s.threadMap t <;> simp [ensureThread, h]

theorem ensureThread_allEmitted (s : IngestState) (t : String) :
    allEmitted (ensureThread s t) = allEmitted s := by
  cases h : recLookup s.threadMap t with
  | some v => simp [ensureThread, h]
  | none =>
    simp [ensureThread, h, allEmitted, recSet_of_lookup_none h, lanesFlat]

theorem ensureThread_lookup (s : IngestState) (t : String) :
    ∃ lv : Lanes, recLookup (ensureThread s t).threadMap t = some lv := by
  cases h : recLookup s.threadMap t with
  | some v => exact ⟨v, by simp [ensureThread, h]⟩
  | none => exact ⟨([], []), by simp [ensureThread, h, recLookup_recSet_self]⟩

theorem pushLane_openEvents (s : IngestState) (tid : String) (isSrc : Bool)
    (p : ProcessedEvent) : (pushLane s tid isSrc p).openEvents = s.openEvents := rfl

theorem pushLane_maxTraceTime (s : IngestState) (tid : String) (isSrc : Bool)
    (p : ProcessedEvent) : (pushLane s tid isSrc p).maxTraceTime = s.maxTraceTime := rfl

theorem pushLane_allEmitted {s : IngestState} {tid : String} {lv : Lanes}
    (h : recLookup s.threadMap tid = some lv) (isSrc : Bool) (p : ProcessedEvent) :
    ∃ A B, allEmitted s = A ++ B ∧ allEmitted (pushLane s tid isSrc p) = A ++ p :: B := by
  obtain ⟨A, B, h1, h2⟩ := lanesFlat_split h
  cases isSrc with
  | false =>
    refine ⟨A ++ (lv.1 ++ lv.2), B, ?_, ?_⟩
    · simpa [allEmitted, List.append_assoc] using h1
    · have := h2 (lv.1, lv.2 ++ [p])
      simp only [allEmitted, pushLane, h, Option.getD_some, Bool.false_eq_true,
        if_false]
      simpa [List.append_assoc] using this
  | true =>
    refine ⟨A ++ lv.1, lv.2 ++ B, ?_, ?_⟩
    · simpa [allEmitted, List.append_assoc] using h1
    · have := h2 (lv.1 ++ [p], lv.2)
      simp only [allEmitted, pushLane, h, Option.getD_some, if_true]
      simpa [List.append_assoc] using this

/-! ### Record-update projections -/

theorem setMax_maxTraceTime (s : IngestState) (q : ℚ) :
    ({ s with maxTraceTime := q } : IngestState).maxTraceTime = q := rfl

theorem allEmitted_setMax (s : IngestState) (q : ℚ) :
    allEmitted { s with maxTraceTime := q } = allEmitted s := rfl

theorem allEmitted_setOpen (s : IngestState) (o : List (String × List TraceEvent)) :
    allEmitted { s with openEvents := o } = allEmitted s := rfl

theorem setOpen_maxTraceTime (s : IngestState) (o : List (String × List TraceEvent)) :
    ({ s with openEvents := o } : IngestState).maxTraceTime = s.maxTraceTime := rfl

/-! ### The `maxTraceTime` invariant -/

theorem stepEvent_inv (s : IngestState) (e : TraceEvent) (h : IngestInv s) :
    IngestInv (stepEvent s e) := by
  unfold IngestInv at h ⊢
  cases htid : e.tid with
  | none => simp only [stepEvent, htid]; exact h
  | some tidStr =>
    have hmax := ensureThread_maxTraceTime s tidStr
    have hall := ensureThread_allEmitted s tidStr
    obtain ⟨lv, hlv⟩ := ensureThread_lookup s tidStr
    by_cases hX : e.ph = "X"
    · obtain ⟨A, B, h1, h2⟩ := pushLane_allEmitted hlv (isSourceEvent e)
        ⟨e.name, e.detail.getD "", e.ts, e.dur.getD 0, e.ts + e.dur.getD 0, tidStr, 0⟩
      simp only [stepEvent, htid]
      rw [if_pos hX]
      dsimp only [allEmitted] at h1 h2 hall ⊢
      rw [h2, listQMax_map_middle, pushLane_maxTraceTime, hmax, ← h1, hall]
      have h' : listQMax (List.map ProcessedEvent.endTime (lanesFlat s.threadMap)) =
          s.maxTraceTime := h.symm
      rw [h']
      exact ite_gt_eq_max _ _
    · by_cases hb : e.ph = "b"
      · simp only [stepEvent, htid]
        rw [if_neg hX, if_pos hb]
        dsimp only [allEmitted] at hall ⊢
        rw [hall, hmax]
        exact h
      · by_cases he : e.ph = "e"
        · simp only [stepEvent, htid]
          rw [if_neg hX, if_neg hb, if_pos he]
          rcases hstack : (recLookup (ensureThread s tidStr).openEvents
              (eventKey tidStr e.name)).getD [] with _ | ⟨b, rest⟩
          · dsimp only
            rw [hmax, hall]
            exact h
          · dsimp only
            obtain ⟨A, B, h1, h2⟩ := pushLane_allEmitted
              (s := { ensureThread s tidStr with
                openEvents := recSet (ensureThread s tidStr).openEvents
                  (eventKey tidStr e.name) rest }) hlv (isSourceEvent e)
              ⟨b.name, b.detail.getD "", b.ts, e.ts - b.ts, e.ts, tidStr, 0⟩
            dsimp only [allEmitted] at h1 h2 hall ⊢
            rw [h2, listQMax_map_middle, pushLane_maxTraceTime, setOpen_maxTraceTime,
              hmax, ← h1, hall]
            have h' : listQMax (List.map ProcessedEvent.endTime (lanesFlat s.threadMap)) =
                s.maxTraceTime := h.symm
            rw [h']
            exact ite_gt_eq_max _ _
        · simp only [stepEvent, htid]
          rw [if_neg hX, if_neg hb, if_neg he]
          rw [hmax, hall]
          exact h

theorem ingest_inv (events : List TraceEvent) : IngestInv (ingest events) := by
  have main : ∀ (es : List TraceEvent) (s : IngestState),
      IngestInv s → IngestInv (es.foldl stepEvent s) := by
    intro es
    induction es with
    | nil => intro s hs; exact hs
    | cons e es ih => intro s hs; exact ih _ (stepEvent_inv s e hs)
  exact main events initIngest
    (by simp [IngestInv, initIngest, allEmitted, lanesFlat, listQMax])

/-! ### Claim C10 -/

theorem ensureThread_laneOf (s : IngestState) (tidStr t : String) :
    laneOf (ensureThread s tidStr) t = laneOf s t := by
  cases h : recLookup s.threadMap tidStr with
  | some v => simp [ensureThread, h]
  | none =>
    by_cases ht : t = tidStr
    · subst ht
      simp [ensureThread, h, laneOf, recLookup_recSet_self]
    · simp [ensureThread, h, laneOf, recLookup_recSet_ne _ _ ht]

theorem ensureThread_openOf (s : IngestState) (tidStr k : String) :
    openOf (ensureThread s tidStr) k = openOf s k := by
  unfold openOf
  rw [ensureThread_openEvents]

theorem pushLane_laneOf (s : IngestState) (tid : String) (isSrc : Bool)
    (p : ProcessedEvent) (t : String) :
    laneOf (pushLane s tid isSrc p) t =
      if t = tid then
        (if isSrc then ((laneOf s tid).1 ++ [p], (laneOf s tid).2)
        else ((laneOf s tid).1, (laneOf s tid).2 ++ [p]))
      else laneOf s t := by
  by_cases ht : t = tid
  · subst ht
    simp [pushLane, laneOf, recLookup_recSet_self]
  · simp [pushLane, laneOf, recLookup_recSet_ne _ _ ht, ht]

theorem laneOf_setMax (s : IngestState) (q : ℚ) (t : String) :
    laneOf { s with maxTraceTime := q } t = laneOf s t := rfl

theorem laneOf_setOpen (s : IngestState) (o : List (String × List TraceEvent))
    (t : String) : laneOf { s with openEvents := o } t = laneOf s t := rfl

theorem openOf_pushLane (s : IngestState) (tid : String) (isSrc : Bool)
    (p : ProcessedEvent) (k : String) :
    openOf (pushLane s tid isSrc p) k = openOf s k := rfl

theorem stepEvent_none (s : IngestState) (e : TraceEvent) (h : e.tid = none) :
    stepEvent s e = s := by
  simp [stepEvent, h]

/-- The observable effect of a `complete`-event step: stacks untouched,
`maxTraceTime` raised to the event's end, its `ProcessedEvent` appended
to the event's lane of its thread, all other lanes unchanged. -/
theorem stepEvent_X_eff (s : IngestState) (e : TraceEvent) (tidStr : String)
    (htid : e.tid = some tidStr) (hX : e.ph = "X") :
    (∀ k, openOf (stepEvent s e) k = openOf s k) ∧
    (stepEvent s e).maxTraceTime =
      (if e.ts + e.dur.getD 0 > s.maxTraceTime then e.ts + e.dur.getD 0
      else s.maxTraceTime) ∧
    (∀ t, laneOf (stepEvent s e) t =
      if t = tidStr then
        (if isSourceEvent e then
          ((laneOf s tidStr).1 ++ [procX e tidStr], (laneOf s tidStr).2)
        else ((laneOf s tidStr).1, (laneOf s tidStr).2 ++ [procX e tidStr]))
      else laneOf s t) := by
  refine ⟨?_, ?_, ?_⟩
  · intro k
    simp only [stepEvent, htid]
    rw [if_pos hX]
    simp only [openOf, pushLane_openEvents, ensureThread_openEvents]
  · simp only [stepEvent, htid]
    rw [if_pos hX]
    dsimp only
    rw [pushLane_maxTraceTime, ensureThread_maxTraceTime]
  · intro t
    simp only [stepEvent, htid]
    rw [if_pos hX]
    rw [laneOf_setMax, pushLane_laneOf]
    by_cases ht : t = tidStr
    · subst ht
      rw [if_pos rfl, if_pos rfl, ensureThread_laneOf]
      rfl
    · rw [if_neg ht, if_neg ht, ensureThread_laneOf]

/-- The observable effect of a `begin`-event step: lanes and
`maxTraceTime` untouched, the event pushed on top of its composite-key
stack, all other stacks unchanged. -/
theorem stepEvent_b_eff (s : IngestState) (e : TraceEvent) (tidStr : String)
    (htid : e.tid = some tidStr) (hb : e.ph = "b") :
    (∀ t, laneOf (stepEvent s e) t = laneOf s t) ∧
    (stepEvent s e).maxTraceTime = s.maxTraceTime ∧
    openOf (stepEvent s e) (eventKey tidStr e.name) =
      e :: openOf s (eventKey tidStr e.name) ∧
    (∀ k, k ≠ eventKey tidStr e.name → openOf (stepEvent s e) k = openOf s k) := by
  have hX : ¬ e.ph = "X" := by rw [hb]; decide
  refine ⟨?_, ?_, ?_, ?_⟩
  · intro t
    simp only [stepEvent, htid]
    rw [if_neg hX, if_pos hb]
    rw [laneOf_setOpen, ensureThread_laneOf]
  · simp only [stepEvent, htid]
    rw [if_neg hX, if_pos hb]
    dsimp only
    exact ensureThread_maxTraceTime s tidStr
  · simp only [stepEvent, htid]
    rw [if_neg hX, if_pos hb]
    simp only [openOf, recLookup_recSet_self, Option.getD_some]
    rw [ensureThread_openEvents]
  · intro k hk
    simp only [stepEvent, htid]
    rw [if_neg hX, if_pos hb]
    simp only [openOf]
    rw [recLookup_recSet_ne _ _ hk, ensureThread_openEvents]

/-- The observable effect of an `end`-event step whose composite-key
stack is empty: nothing changes. -/
theorem stepEvent_e_none_eff (s : IngestState) (e : TraceEvent) (tidStr : String)
    (htid : e.tid = some tidStr) (he : e.ph = "e")
    (hempty : openOf s (eventKey tidStr e.name) = []) :
    (∀ t, laneOf (stepEvent s e) t = laneOf s t) ∧
    (stepEvent s e).maxTraceTime = s.maxTraceTime ∧
    (∀ k, openOf (stepEvent s e) k = openOf s k) := by
  have hX : ¬ e.ph = "X" := by rw [he]; decide
  have hb : ¬ e.ph = "b" := by rw [he]; decide
  have hempty' : (recLookup (ensureThread s tidStr).openEvents
      (eventKey tidStr e.name)).getD [] = [] := by
    rw [ensureThread_openEvents]; exact hempty
  refine ⟨?_, ?_, ?_⟩
  · intro t
    simp only [stepEvent, htid]
    rw [if_neg hX, if_neg hb, if_pos he, hempty']
    exact ensureThread_laneOf s tidStr t
  · simp only [stepEvent, htid]
    rw [if_neg hX, if_neg hb, if_pos he, hempty']
    exact ensureThread_maxTraceTime s tidStr
  · intro k
    simp only [stepEvent, htid]
    rw [if_neg hX, if_neg hb, if_pos he, hempty']
    exact ensureThread_openOf s tidStr k

/-- The observable effect of an `end`-event step that pops `p` from its
composite-key stack: the emitted `ProcessedEvent` is appended to the
event's lane, `maxTraceTime` raised to the end's timestamp, the stack
loses its top, all other stacks unchanged. -/
theorem stepEvent_e_pop_eff (s : IngestState) (e : TraceEvent) (tidStr : String)
    (p : TraceEvent) (rest : List TraceEvent)
    (htid : e.tid = some tidStr) (he : e.ph = "e")
    (hcons : openOf s (eventKey tidStr e.name) = p :: rest) :
    (∀ t, laneOf (stepEvent s e) t =
      if t = tidStr then
        (if isSourceEvent e then
          ((laneOf s tidStr).1 ++ [procE p e tidStr], (laneOf s tidStr).2)
        else ((laneOf s tidStr).1, (laneOf s tidStr).2 ++ [procE p e tidStr]))
      else laneOf s t) ∧
    (stepEvent s e).maxTraceTime =
      (if e.ts > s.maxTraceTime then e.ts else s.maxTraceTime) ∧
    openOf (stepEvent s e) (eventKey tidStr e.name) = rest ∧
    (∀ k, k ≠ eventKey tidStr e.name → openOf (stepEvent s e) k = openOf s k) := by
  have hX : ¬ e.ph = "X" := by rw [he]; decide
  have hb : ¬ e.ph = "b" := by rw [he]; decide
  have hcons' : (recLookup (ensureThread s tidStr).openEvents
      (eventKey tidStr e.name)).getD [] = p :: rest := by
    rw [ensureThread_openEvents]; exact hcons
  refine ⟨?_, ?_, ?_, ?_⟩
  · intro t
    simp only [stepEvent, htid]
    rw [if_neg hX, if_neg hb, if_pos he, hcons']
    rw [laneOf_setMax, pushLane_laneOf]
    by_cases ht : t = tidStr
    · subst ht
      rw [if_pos rfl, if_pos rfl, laneOf_setOpen, ensureThread_laneOf]
      rfl
    · rw [if_neg ht, if_neg ht, laneOf_setOpen, ensureThread_laneOf]
  · simp only [stepEvent, htid]
    rw [if_neg hX, if_neg hb, if_pos he, hcons']
    dsimp only
    rw [pushLane_maxTraceTime, setOpen_maxTraceTime, ensureThread_maxTraceTime]
  · simp only [stepEvent, htid]
    rw [if_neg hX, if_neg hb, if_pos he, hcons']
    simp only [openOf, pushLane_openEvents, recLookup_recSet_self, Option.getD_some]
  · intro k hk
    simp only [stepEvent, htid]
    rw [if_neg hX, if_neg hb, if_pos he, hcons']
    simp only [openOf, pushLane_openEvents]
    rw [recLookup_recSet_ne _ _ hk, ensureThread_openEvents]

/-- The observable effect of a step for any other phase: nothing
changes. -/
theorem stepEvent_other_eff (s : IngestState) (e : TraceEvent) (tidStr : String)
    (htid : e.tid = some tidStr) (hX : ¬ e.ph = "X") (hb : ¬ e.ph = "b")
    (he : ¬ e.ph = "e") :
    (∀ t, laneOf (stepEvent s e) t = laneOf s t) ∧
    (stepEvent s e).maxTraceTime = s.maxTraceTime ∧
    (∀ k, openOf (stepEvent s e) k = openOf s k) := by
  refine ⟨?_, ?_, ?_⟩
  · intro t
    simp only [stepEvent, htid]
    rw [if_neg hX, if_neg hb, if_neg he]
    exact ensureThread_laneOf s tidStr t
  · simp only [stepEvent, htid]
    rw [if_neg hX, if_neg hb, if_neg he]
    exact ensureThread_maxTraceTime s tidStr
  · intro k
    simp only [stepEvent, htid]
    rw [if_neg hX, if_neg hb, if_neg he]
    exact ensureThread_openOf s tidStr k

/-- One step preserves the with-`b`/without-`b` simulation, as long as
the step is not the pop that would remove `b` itself. -/
theorem RelN_step {k : String} {b : TraceEvent} {n : ℕ} {s s' : IngestState}
    (hR : RelN k b n s s') (e : TraceEvent)
    (hnt : popTrigger k n s e = false) :
    RelN k b n (stepEvent s e) (stepEvent s' e) := by
  obtain ⟨hlane, hmax, ⟨P, Q, hQ, hsk, hsk'⟩, hother⟩ := hR
  cases htid : e.tid with
  | none =>
    rw [stepEvent_none s e htid, stepEvent_none s' e htid]
    exact ⟨hlane, hmax, ⟨P, Q, hQ, hsk, hsk'⟩, hother⟩
  | some tidStr =>
    by_cases hX : e.ph = "X"
    · obtain ⟨ho1, hm1, hl1⟩ := stepEvent_X_eff s e tidStr htid hX
      obtain ⟨ho2, hm2, hl2⟩ := stepEvent_X_eff s' e tidStr htid hX
      refine ⟨?_, ?_, ⟨P, Q, hQ, ?_, ?_⟩, ?_⟩
      · intro t
        rw [hl1 t, hl2 t, hlane tidStr, hlane t]
      · rw [hm1, hm2, hmax]
      · rw [ho1 k, hsk]
      · rw [ho2 k, hsk']
      · intro k' hk'
        rw [ho1 k', ho2 k', hother k' hk']
    · by_cases hbph : e.ph = "b"
      · obtain ⟨hl1, hm1, hk1, ho1⟩ := stepEvent_b_eff s e tidStr htid hbph
        obtain ⟨hl2, hm2, hk2, ho2⟩ := stepEvent_b_eff s' e tidStr htid hbph
        by_cases hkey : eventKey tidStr e.name = k
        · subst hkey
          refine ⟨?_, ?_, ⟨e :: P, Q, hQ, ?_, ?_⟩, ?_⟩
          · intro t
            rw [hl1 t, hl2 t, hlane t]
          · rw [hm1, hm2, hmax]
          · rw [hk1, hsk]
            rfl
          · rw [hk2, hsk']
            rfl
          · intro k' hk'
            rw [ho1 k' hk', ho2 k' hk', hother k' hk']
        · refine ⟨?_, ?_, ⟨P, Q, hQ, ?_, ?_⟩, ?_⟩
          · intro t
            rw [hl1 t, hl2 t, hlane t]
          · rw [hm1, hm2, hmax]
          · rw [ho1 k (Ne.symm hkey), hsk]
          · rw [ho2 k (Ne.symm hkey), hsk']
          · intro k' hk'
            by_cases hkk : k' = eventKey tidStr e.name
            · subst hkk
              rw [hk1, hk2, hother _ hk']
            · rw [ho1 k' hkk, ho2 k' hkk, hother k' hk']
      · by_cases heph : e.ph = "e"
        · by_cases hkey : eventKey tidStr e.name = k
          · subst hkey
            cases P with
            | nil =>
              exfalso
              have htrig : popTrigger (eventKey tidStr e.name) n s e = true := by
                simp [popTrigger, htid, heph, hsk, hQ]
              simp [htrig] at hnt
            | cons p P' =>
              have hc1 : openOf s (eventKey tidStr e.name) = p :: (P' ++ b :: Q) := by
                simpa using hsk
              have hc2 : openOf s' (eventKey tidStr e.name) = p :: (P' ++ Q) := by
                simpa using hsk'
              obtain ⟨hl1, hm1, hk1, ho1⟩ :=
                stepEvent_e_pop_eff s e tidStr p _ htid heph hc1
              obtain ⟨hl2, hm2, hk2, ho2⟩ :=
                stepEvent_e_pop_eff s' e tidStr p _ htid heph hc2
              refine ⟨?_, ?_, ⟨P', Q, hQ, ?_, ?_⟩, ?_⟩
              · intro t
                rw [hl1 t, hl2 t, hlane tidStr, hlane t]
              · rw [hm1, hm2, hmax]
              · rw [hk1]
              · rw [hk2]
              · intro k' hk'
                rw [ho1 k' hk', ho2 k' hk', hother k' hk']
          · have hoeq : openOf s (eventKey tidStr e.name) =
                openOf s' (eventKey tidStr e.name) := hother _ hkey
            cases hstack : openOf s (eventKey tidStr e.name) with
            | nil =>
              obtain ⟨hl1, hm1, ho1⟩ := stepEvent_e_none_eff s e tidStr htid heph hstack
              obtain ⟨hl2, hm2, ho2⟩ := stepEvent_e_none_eff s' e tidStr htid heph
                (by rw [← hoeq]; exact hstack)
              refine ⟨?_, ?_, ⟨P, Q, hQ, ?_, ?_⟩, ?_⟩
              · intro t
                rw [hl1 t, hl2 t, hlane t]
              · rw [hm1, hm2, hmax]
              · rw [ho1 k, hsk]
              · rw [ho2 k, hsk']
              · intro k' hk'
                rw [ho1 k', ho2 k', hother k' hk']
            | cons p rest =>
              obtain ⟨hl1, hm1, hk1, ho1⟩ :=
                stepEvent_e_pop_eff s e tidStr p rest htid heph hstack
              obtain ⟨hl2, hm2, hk2, ho2⟩ :=
                stepEvent_e_pop_eff s' e tidStr p rest htid heph
                  (by rw [← hoeq]; exact hstack)
              refine ⟨?_, ?_, ⟨P, Q, hQ, ?_, ?_⟩, ?_⟩
              · intro t
                rw [hl1 t, hl2 t, hlane tidStr, hlane t]
              · rw [hm1, hm2, hmax]
              · rw [ho1 k (Ne.symm hkey), hsk]
              · rw [ho2 k (Ne.symm hkey), hsk']
              · intro k' hk'
                by_cases hkk : k' = eventKey tidStr e.name
                · subst hkk
                  rw [hk1, hk2]
                · rw [ho1 k' hkk, ho2 k' hkk, hother k' hk']
        · obtain ⟨hl1, hm1, ho1⟩ := stepEvent_other_eff s e tidStr htid hX hbph heph
          obtain ⟨hl2, hm2, ho2⟩ := stepEvent_other_eff s' e tidStr htid hX hbph heph
          refine ⟨?_, ?_, ⟨P, Q, hQ, ?_, ?_⟩, ?_⟩
          · intro t
            rw [hl1 t, hl2 t, hlane t]
          · rw [hm1, hm2, hmax]
          · rw [ho1 k, hsk]
          · rw [ho2 k, hsk']
          · intro k' hk'
            rw [ho1 k', ho2 k', hother k' hk']

theorem RelN_fold {k : String} {b : TraceEvent} {n : ℕ} :
    ∀ (es : List TraceEvent) (s s' : IngestState),
      RelN k b n s s' → beginPopped k n es s = false →
      RelN k b n (es.foldl stepEvent s) (es.foldl stepEvent s') := by
  intro es
  induction es with
  | nil => intro s s' hR _; exact hR
  | cons e es ih =>
    intro s s' hR hbp
    rw [beginPopped] at hbp
    obtain ⟨h1, h2⟩ := Bool.or_eq_false_iff.1 hbp
    exact ih _ _ (RelN_step hR e h1) h2

/-- Amended C10: a `begin` event that is never popped by a later `end`
with the same composite key string `tid + "-" + name` has no
`ProcessedEvent` emitted for it and its timestamp contributes nothing:
deleting it from the stream leaves every (thread, lane) event list and
`maxTraceTime` unchanged (so the output is exactly what the stream
without it produces); and `maxTraceTime` always equals the maximum end
time of the events actually emitted — `complete` events and
composite-key-matched begin/end pairs — so only those extend the
trace's time extent.  No step can fail. -/
theorem C10_unpopped_begin_emits_nothing :
    (∀ (pre post : List TraceEvent) (b : TraceEvent) (tidStr : String),
      b.tid = some tidStr → b.ph = "b" →
      beginPopped (eventKey tidStr b.name)
          ((openOf (ingest pre) (eventKey tidStr b.name)).length) post
          (ingest (pre ++ [b])) = false →
      (∀ t, laneOf (ingest (pre ++ b :: post)) t = laneOf (ingest (pre ++ post)) t) ∧
      (ingest (pre ++ b :: post)).maxTraceTime = (ingest (pre ++ post)).maxTraceTime) ∧
    (∀ events : List TraceEvent,
      (ingest events).maxTraceTime =
        listQMax ((allEmitted (ingest events)).map ProcessedEvent.endTime)) := by
  refine ⟨?_, fun events => ingest_inv events⟩
  intro pre post b tidStr htid hb hnp
  have hstep : ingest (pre ++ [b]) = stepEvent (ingest pre) b := by
    simp [ingest, List.foldl_append]
  have e1 : ingest (pre ++ b :: post) =
      post.foldl stepEvent (stepEvent (ingest pre) b) := by
    rw [show pre ++ b :: post = (pre ++ [b]) ++ post by simp]
    simp [ingest, List.foldl_append]
  have e2 : ingest (pre ++ post) = post.foldl stepEvent (ingest pre) := by
    simp [ingest, List.foldl_append]
  obtain ⟨hl, hm, hk, ho⟩ := stepEvent_b_eff (ingest pre) b tidStr htid hb
  have hR0 : RelN (eventKey tidStr b.name) b
      ((openOf (ingest pre) (eventKey tidStr b.name)).length)
      (stepEvent (ingest pre) b) (ingest pre) :=
    ⟨hl, hm,
      ⟨[], openOf (ingest pre) (eventKey tidStr b.name), rfl, by simpa using hk,
        by simp⟩, ho⟩
  have hR := RelN_fold post _ _ hR0 (by rw [← hstep]; exact hnp)
  rw [e1, e2]
  exact ⟨hR.1, hR.2.1⟩

/-- C10 as stated is false under the (thread id, name)-pair reading of
"matching" that the spec's own pairing description uses: `bDash` =
begin(tid "1-a", name "b", ts 5) is never followed by an end with
thread id "1-a" and name "b", yet a `ProcessedEvent` carrying its name
and timestamp (start 5) is emitted for it — popped through the
composite-key collision with end(tid "1", name "a-b") — and the trace
extent grows to 15 although the input has no complete event and no
pair-matched begin/end pair. -/
theorem C10_counterexample :
    bDash.ph = "b" ∧
    (∀ e ∈ [bDash, eDash], ¬(e.ph = "e" ∧ e.tid = bDash.tid ∧ e.name = bDash.name)) ∧
    allEmitted (ingest [bDash, eDash]) =
      [⟨"b", "", 5, 10, 15, "1", 0⟩] ∧
    (ingest [bDash, eDash]).maxTraceTime = 15 := by
  have h1 : ¬ ("b" : String) = "X" := by decide
  have h2 : ¬ ("e" : String) = "X" := by decide
  have h3 : ¬ ("e" : String) = "b" := by decide
  have h4 : ¬ ("1-a" : String) = "1" := by decide
  have h5 : ("1-a" ++ "-" ++ "b" : String) = "1" ++ "-" ++ "a-b" := rfl
  have h6 : ¬ ("a-b" : String) = "Source" := by decide
  refine ⟨rfl, by decide, ?_, ?_⟩
  · norm_num [allEmitted, lanesFlat, ingest, stepEvent, ensureThread, pushLane,
      recLookup, recSet, initIngest, eventKey, isSourceEvent, bDash, eDash,
      List.flatMap_cons, List.flatMap_nil, h1, h2, h3, h4, h5, h6]
  · norm_num [ingest, stepEvent, ensureThread, pushLane, recLookup, recSet,
      initIngest, eventKey, isSourceEvent, bDash, eDash, h1, h2, h3, h4, h5, h6]

/-- Witness for C10 at a concrete input: the begin `bF` (key "1-F") is
not popped by the end `eDash` (key "1-a-b"), so deleting it changes
neither thread 1's lanes nor the trace extent. -/
theorem C10_witness :
    laneOf (ingest [bF, eDash]) "1" = laneOf (ingest [eDash]) "1" ∧
    (ingest [bF, eDash]).maxTraceTime = (ingest [eDash]).maxTraceTime := by
  have h := C10_unpopped_begin_emits_nothing.1 [] [eDash] bF "1" rfl rfl rfl
  exact ⟨h.1 "1", h.2⟩

/-! ### Claim C1 -/

/-- Amended C1: an `end` event with a defined thread id pops the most
recently pushed open begin stored under the composite key string
`tidStr ++ "-" ++ name` (which coincides with matching on the
(thread id, name) pair only when the concatenation is unambiguous), and
emits exactly one `ProcessedEvent` spanning from the popped begin's
timestamp to the end's timestamp with their difference as duration; when
the stack for that key is empty, nothing is emitted, `maxTraceTime` and
all open stacks are unchanged, and no error is raised (the step is a
total function). -/
theorem C1_end_event_pops_by_composite_key :
    ∀ (s : IngestState) (e : TraceEvent) (tidStr : String),
      e.tid = some tidStr → e.ph = "e" →
      ((openOf s (eventKey tidStr e.name) = [] →
        allEmitted (stepEvent s e) = allEmitted s ∧
        (stepEvent s e).maxTraceTime = s.maxTraceTime ∧
        (stepEvent s e).openEvents = s.openEvents) ∧
      (∀ (b : TraceEvent) (rest : List TraceEvent),
        openOf s (eventKey tidStr e.name) = b :: rest →
        openOf (stepEvent s e) (eventKey tidStr e.name) = rest ∧
        (∀ k, k ≠ eventKey tidStr e.name → openOf (stepEvent s e) k = openOf s k) ∧
        ∃ A B, allEmitted s = A ++ B ∧
          allEmitted (stepEvent s e) =
            A ++ (⟨b.name, b.detail.getD "", b.ts, e.ts - b.ts, e.ts, tidStr, 0⟩ :
              ProcessedEvent) :: B)) := by
  intro s e tidStr htid he
  have hX : ¬ e.ph = "X" := by rw [he]; decide
  have hb : ¬ e.ph = "b" := by rw [he]; decide
  constructor
  · intro hempty
    have hempty' : (recLookup (ensureThread s tidStr).openEvents
        (eventKey tidStr e.name)).getD [] = [] := by
      rw [ensureThread_openEvents]; exact hempty
    refine ⟨?_, ?_, ?_⟩
    · simp only [stepEvent, htid]
      rw [if_neg hX, if_neg hb, if_pos he, hempty']
      exact ensureThread_allEmitted s tidStr
    · simp only [stepEvent, htid]
      rw [if_neg hX, if_neg hb, if_pos he, hempty']
      exact ensureThread_maxTraceTime s tidStr
    · simp only [stepEvent, htid]
      rw [if_neg hX, if_neg hb, if_pos he, hempty']
      exact ensureThread_openEvents s tidStr
  · intro b rest hcons
    have hcons' : (recLookup (ensureThread s tidStr).openEvents
        (eventKey tidStr e.name)).getD [] = b :: rest := by
      rw [ensureThread_openEvents]; exact hcons
    obtain ⟨lv, hlv⟩ := ensureThread_lookup s tidStr
    refine ⟨?_, ?_, ?_⟩
    · simp only [stepEvent, htid]
      rw [if_neg hX, if_neg hb, if_pos he, hcons']
      show (recLookup (recSet (ensureThread s tidStr).openEvents
          (eventKey tidStr e.name) rest) (eventKey tidStr e.name)).getD [] = rest
      rw [recLookup_recSet_self]
      rfl
    · intro k hk
      simp only [stepEvent, htid]
      rw [if_neg hX, if_neg hb, if_pos he, hcons']
      show (recLookup (recSet (ensureThread s tidStr).openEvents
          (eventKey tidStr e.name) rest) k).getD [] = openOf s k
      rw [recLookup_recSet_ne _ _ hk, ensureThread_openEvents]
      rfl
    · obtain ⟨A, B, h1, h2⟩ := pushLane_allEmitted
        (s := { ensureThread s tidStr with
          openEvents := recSet (ensureThread s tidStr).openEvents
            (eventKey tidStr e.name) rest }) hlv (isSourceEvent e)
        ⟨b.name, b.detail.getD "", b.ts, e.ts - b.ts, e.ts, tidStr, 0⟩
      have h1' : allEmitted (ensureThread s tidStr) = A ++ B := h1
      rw [ensureThread_allEmitted] at h1'
      refine ⟨A, B, h1', ?_⟩
      simp only [stepEvent, htid]
      rw [if_neg hX, if_neg hb, if_pos he, hcons']
      exact h2

/-- C1 as stated is false: the composite key string is ambiguous.  A
begin on thread id "1-a" named "b" and an end on thread id "1" named
"a-b" share the key "1-a-b", so the end pops a begin whose
(thread id, name) pair differs from its own and emits an event, although
no begin with its (thread id, name) pair is open. -/
theorem C1_counterexample :
    (preprocess exWorld [bDash, eDash]).threads =
      [⟨"1-a", [], [], 0, 0⟩,
       ⟨"1", [], [⟨"b", "", 5, 10, 15, "1", 0⟩], 0, 0⟩] ∧
    ∀ e ∈ [bDash, eDash], ¬(e.ph = "b" ∧ e.tid = some "1" ∧ e.name = "a-b") := by
  constructor
  · have h1 : ¬ ("b" : String) = "X" := by decide
    have h2 : ¬ ("e" : String) = "X" := by decide
    have h3 : ¬ ("e" : String) = "b" := by decide
    have h4 : ¬ ("1-a" : String) = "1" := by decide
    have h5 : ("1-a" ++ "-" ++ "b" : String) = "1" ++ "-" ++ "a-b" := rfl
    norm_num [preprocess, ingest, stepEvent, ensureThread, pushLane, recLookup, recSet,
      initIngest, buildThreads, computeDepth, stableSort, stableInsert, jsSortLe,
      depthScan, updateTotalHeight, eventKey, isSourceEvent, bDash, eDash, exWorld,
      h1, h2, h3, h4, h5]
  · decide

/-- Witness for C1 at a concrete input: end(thread 1, "F", 15) pops
begin(thread 1, "F", 5) and emits ProcessedEvent{start 5, dur 10,
end 15}. -/
theorem C1_witness :
    openOf (stepEvent sOpenF eF) (eventKey "1" "F") = [] ∧
    ∃ A B, allEmitted sOpenF = A ++ B ∧
      allEmitted (stepEvent sOpenF eF) =
        A ++ (⟨"F", "", 5, 10, 15, "1", 0⟩ : ProcessedEvent) :: B := by
  have h := (C1_end_event_pops_by_composite_key sOpenF eF "1" rfl rfl).2 bF [] rfl
  obtain ⟨h1, _, A, B, hA, hB⟩ := h
  refine ⟨h1, A, B, hA, ?_⟩
  rw [hB]
  norm_num [bF, eF]

/-! ### Claim C2 -/

theorem jsSortLe_eq_specSortLe : jsSortLe = specSortLe := by
  funext a b
  by_cases h1 : a.start < b.start <;> by_cases h2 : a.start = b.start <;>
    by_cases h3 : b.dur ≤ a.dur <;> simp [jsSortLe, specSortLe, h1, h2, h3]

/-- C2: per (thread, lane), depth assignment sorts by start ascending
with ties broken by duration descending, then scans with a stack,
popping while the stack top's end is ≤ the current event's start,
assigning the resulting stack size as depth, and tracking the running
maximum as the lane's max depth; on complete events A(thread 1, start 0,
dur 100) and B(thread 1, start 10, dur 20) this yields A.depth = 0,
B.depth = 1 and thread max depth 1. -/
theorem C2_depth_assignment :
    (∀ evs : List ProcessedEvent, computeDepth evs = depthAssignSpec evs) ∧
    (preprocess exWorld [xA, xB]).threads =
      [⟨"1", [],
        [⟨"A", "", 0, 100, 100, "1", 0⟩, ⟨"B", "", 10, 20, 30, "1", 1⟩], 0, 1⟩] := by
  constructor
  · intro evs
    unfold computeDepth depthAssignSpec
    rw [jsSortLe_eq_specSortLe]
  · norm_num [preprocess, ingest, stepEvent, ensureThread, pushLane, recLookup, recSet,
      initIngest, buildThreads, computeDepth, stableSort, stableInsert, jsSortLe,
      depthScan, updateTotalHeight, eventKey, isSourceEvent, xA, xB, exWorld]

/-! ### Claim C3 -/

/-- Amended C3: the zoom computation of the wheel listener (before the
trailing `clampView` call) preserves the time value under the cursor
exactly: `(cursorX − x_mid) / scale_new = (cursorX − x_before) /
scale_before`.  The subsequent clamp can move `x` (see the
counterexample), so the property holds of the zoom step, not of the
whole handler. -/
theorem C3_zoom_preserves_cursor_time :
    ∀ (w : World) (deltaYPos : Bool) (clientX : ℚ),
      0 < w.maxTraceTime → MARGIN_SIDE * 2 < w.canvasWidth →
      (clientX - (wheelZoom w deltaYPos clientX).view.x) /
          (wheelZoom w deltaYPos clientX).view.scale =
        (clientX - w.view.x) / w.view.scale := by
  intro w d cx hmax hcw
  have hmin : 0 < (w.canvasWidth - MARGIN_SIDE * 2) / w.maxTraceTime :=
    div_pos (by linarith) hmax
  have hns : (0:ℚ) < max ((w.canvasWidth - MARGIN_SIDE * 2) / w.maxTraceTime)
      (min (w.view.scale * (if d then 1 - ZOOM_SENSITIVITY else 1 + ZOOM_SENSITIVITY))
        MAX_SCALE) := lt_max_of_lt_left hmin
  dsimp only [wheelZoom]
  rw [sub_sub_cancel, mul_div_cancel_right₀ _ (ne_of_gt hns)]

/-- C3 as stated (the clamp step included) is false: zooming out at the
full-fit scale leaves the scale unchanged but `clampView` then pins `x`
to the left margin, moving the time value under the cursor. -/
theorem C3_counterexample :
    (100 - (onWheel zoomWorld true 100).view.x) / (onWheel zoomWorld true 100).view.scale ≠
      (100 - zoomWorld.view.x) / zoomWorld.view.scale := by
  norm_num [onWheel, wheelZoom, clampView, zoomWorld, MARGIN_SIDE, TIMELINE_HEIGHT,
    ZOOM_SENSITIVITY, MAX_SCALE, max_def, min_def]

/-- Witness for C3 at a concrete input. -/
theorem C3_witness :
    (100 - (wheelZoom zoomWorld true 100).view.x) /
        (wheelZoom zoomWorld true 100).view.scale =
      (100 - zoomWorld.view.x) / zoomWorld.view.scale :=
  C3_zoom_preserves_cursor_time zoomWorld true 100 (by norm_num [zoomWorld])
    (by norm_num [zoomWorld, MARGIN_SIDE])

/-! ### Claim C4 -/

/-- C4: after `clampView`, if the content width exceeds the drawable
width (canvas width minus both side margins) then `x` lies in the closed
range `[drawableWidth − contentWidth − margin, margin]`; otherwise `x`
equals the left margin exactly.  (The code's own lower clamp bound,
`canvasWidth − contentWidth − margin`, is 2·margin above the claimed
one, so the containment holds.) -/
theorem C4_clampView_x_bounds :
    ∀ w : World,
      (w.maxTraceTime * w.view.scale > w.canvasWidth - MARGIN_SIDE * 2 →
        (w.canvasWidth - MARGIN_SIDE * 2) - w.maxTraceTime * w.view.scale - MARGIN_SIDE ≤
            (clampView w).view.x ∧
          (clampView w).view.x ≤ MARGIN_SIDE) ∧
      (¬ w.maxTraceTime * w.view.scale > w.canvasWidth - MARGIN_SIDE * 2 →
        (clampView w).view.x = MARGIN_SIDE) := by
  intro w
  constructor
  · intro h
    dsimp only [clampView, MARGIN_SIDE, TIMELINE_HEIGHT] at h ⊢
    rw [if_pos h]
    constructor
    · split_ifs <;> linarith
    · split_ifs <;> linarith
  · intro h
    dsimp only [clampView, MARGIN_SIDE, TIMELINE_HEIGHT] at h ⊢
    rw [if_neg h]

/-- Witness for C4 at a concrete input (content width 1000 over a
500-px canvas, prior `x = 999`). -/
theorem C4_witness :
    (clampWorld.canvasWidth - MARGIN_SIDE * 2) -
        clampWorld.maxTraceTime * clampWorld.view.scale - MARGIN_SIDE ≤
      (clampView clampWorld).view.x ∧
      (clampView clampWorld).view.x ≤ MARGIN_SIDE :=
  (C4_clampView_x_bounds clampWorld).1 (by norm_num [clampWorld, MARGIN_SIDE])

/-! ### Claim C6 -/

/-- C6: `preprocess` is a full rebuild — the resulting threads (lane
lists, depths, max depths) and `maxTraceTime` depend only on the
incoming dataset, never on the prior state, and re-running it on the
same input is idempotent. -/
theorem C6_ingestion_idempotent_full_rebuild :
    ∀ (w₁ w₂ : World) (events : List TraceEvent),
      (preprocess w₁ events).threads = (preprocess w₂ events).threads ∧
      (preprocess w₁ events).maxTraceTime = (preprocess w₂ events).maxTraceTime ∧
      (preprocess (preprocess w₁ events) events).threads =
        (preprocess w₁ events).threads ∧
      (preprocess (preprocess w₁ events) events).maxTraceTime =
        (preprocess w₁ events).maxTraceTime :=
  fun _ _ _ => ⟨rfl, rfl, rfl, rfl⟩

/-! ### Claim C5 -/

theorem getAux_eq_firstHit (v : ViewState) (mx my : ℚ) :
    ∀ (threads : List Thread) (y : ℚ),
      getEventAtPositionAux v mx my threads y =
        firstHit v mx my (laneEntries v threads y) := by
  intro threads
  induction threads with
  | nil => intro y; rfl
  | cons t rest ih =>
    intro y
    simp only [getEventAtPositionAux, laneEntries, firstHit, List.findSome?_cons]
    cases hs : (if y + 20 ≤ my ∧ my ≤ y + 20 + ((t.maxSourceDepth : ℚ) + 1) * v.rowHeight then
        t.sourceEvents.find? (fun ev => isHit v ev mx my (y + 20)) else none) with
    | some f => rfl
    | none =>
      cases hm : (if y + 20 + ((t.maxSourceDepth : ℚ) + 1) * v.rowHeight + 10 ≤ my ∧
          my ≤ y + 20 + ((t.maxSourceDepth : ℚ) + 1) * v.rowHeight + 10 +
            ((t.maxMainDepth : ℚ) + 1) * v.rowHeight then
          t.mainEvents.find? (fun ev => isHit v ev mx my
            (y + 20 + ((t.maxSourceDepth : ℚ) + 1) * v.rowHeight + 10)) else none) with
      | some f => rfl
      | none => exact ih _

/-- Amended C5: hit-testing returns at most one event — the first event,
scanning threads and lanes in rendering order and restricted to lanes
whose vertical band contains the pointer, whose hit-test bounding box
(the bar's rectangle with minimum pixel width 1, not the renderer's
minimum width 0.5) contains the pointer — and returns none when no
event's hit-test box in a matching band contains the pointer. -/
theorem C5_hit_testing_first_match :
    ∀ (w : World) (mx my : ℚ),
      getEventAtPosition w mx my =
        firstHit w.view mx my (laneEntries w.view w.threads w.view.y) ∧
      ((∀ ent ∈ laneEntries w.view w.threads w.view.y,
          ent.1 ≤ my → my ≤ ent.1 + ent.2.1 →
          ∀ ev ∈ ent.2.2, isHit w.view ev mx my ent.1 = false) →
        getEventAtPosition w mx my = none) := by
  intro w mx my
  have heq := getAux_eq_firstHit w.view mx my w.threads w.view.y
  refine ⟨heq, fun hno => ?_⟩
  unfold getEventAtPosition
  rw [heq]
  unfold firstHit
  rw [List.findSome?_eq_none_iff]
  intro ent hent
  by_cases hband : ent.1 ≤ my ∧ my ≤ ent.1 + ent.2.1
  · rw [if_pos hband]
    exact List.find?_eq_none.2 (fun ev hev hhit =>
      by simpa [hhit] using hno ent hent hband.1 hband.2 ev hev)
  · rw [if_neg hband]

/-- C5 as stated is false: `isHit` enforces a minimum hit width of 1
pixel while `drawEvent` draws with a minimum width of 0.5 pixels, so a
pointer at x = 100.8 over a zero-duration bar drawn as [100, 100.5] is
outside every drawn bar's rectangle yet hit-testing returns the event. -/
theorem C5_counterexample :
    getEventAtPosition hitWorld (100.8 : ℚ) 60 = some pZero ∧
    (∀ r ∈ renderBars hitWorld,
      ¬(r.x ≤ (100.8:ℚ) ∧ (100.8:ℚ) ≤ r.x + r.w ∧
        r.y ≤ (60:ℚ) ∧ (60:ℚ) ≤ r.y + r.h)) := by
  constructor
  · norm_num [getEventAtPosition, getEventAtPositionAux, hitWorld, pZero, isHit,
      max_def, List.find?]
  · have hrb : renderBars hitWorld = [⟨100, 54, 0.5, 23⟩] := by
      norm_num [renderBars, renderBarsAux, drawEvent, hitWorld, pZero,
        TIMELINE_HEIGHT, max_def, List.filterMap_cons, List.filterMap_nil]
    rw [hrb]
    intro r hr
    rcases List.mem_singleton.1 hr with rfl
    norm_num

/-- Witness for C5 at a concrete input: with no threads, no lane band
matches and hit-testing returns none. -/
theorem C5_witness : getEventAtPosition exWorld 5 5 = none := by
  apply (C5_hit_testing_first_match exWorld 5 5).2
  intro ent hent
  simp [laneEntries, exWorld] at hent

/-! ### Claim C7 -/

theorem intLog_thirty : Int.log 10 (30 : ℚ) = 1 := by
  rw [Int.log_of_one_le_right _ (by norm_num : (1:ℚ) ≤ 30)]
  have h30 : ⌊(30:ℚ)⌋₊ = 30 := by norm_num
  have hlog : Nat.log 10 30 = 1 := by
    apply Nat.log_eq_of_pow_le_of_lt_pow <;> norm_num
  rw [h30, hlog]
  norm_num

/-- Amended C7: for every positive scale, the tick step is `c × pow`
where `c` is the largest candidate in {1, 2, 2.5, 5} strictly below the
ratio `targetGap/pow` (1 when no candidate is below it) — equivalently
the threshold scan against 5, 2.5, 2 defaulting to `1 × pow` — not the
smallest candidate ≥ the ratio. -/
theorem C7_tick_step_largest_below :
    ∀ scale : ℚ, 0 < scale → tickStep scale = specStepLargestBelow scale := by
  intro s hs
  simp only [tickStep, specStepLargestBelow, specCandidates]
  rw [mul_one_div]
  set g := MIN_TICK_GAP / s with hg
  set pw : ℚ := (10:ℚ) ^ Int.log 10 g with hpw
  set r := g / pw with hr
  by_cases h5 : (5:ℚ) < r
  · have h25 : (2.5:ℚ) < r := by linarith
    have h2 : (2:ℚ) < r := by linarith
    have h1 : (1:ℚ) < r := by linarith
    have hf : List.filter (fun c => decide (c < r)) [1, 2, 2.5, 5] = [1, 2, 2.5, 5] := by
      simp [List.filter_cons, decide_eq_true_eq, h1, h2, h25, h5]
    rw [if_pos h5, hf]
    norm_num [List.foldl, max_def]
  · by_cases h25 : (2.5:ℚ) < r
    · have h2 : (2:ℚ) < r := by linarith
      have h1 : (1:ℚ) < r := by linarith
      have hf : List.filter (fun c => decide (c < r)) [1, 2, 2.5, 5] = [1, 2, 2.5] := by
        simp [List.filter_cons, decide_eq_true_eq, h1, h2, h25, h5]
      rw [if_neg h5, if_pos h25, hf]
      norm_num [List.foldl, max_def]
    · by_cases h2 : (2:ℚ) < r
      · have h1 : (1:ℚ) < r := by linarith
        have hf : List.filter (fun c => decide (c < r)) [1, 2, 2.5, 5] = [1, 2] := by
          simp [List.filter_cons, decide_eq_true_eq, h1, h2, h25, h5]
        rw [if_neg h5, if_neg h25, if_pos h2, hf]
        norm_num [List.foldl, max_def]
      · rw [if_neg h5, if_neg h25, if_neg h2]
        by_cases h1 : (1:ℚ) < r
        · have hf : List.filter (fun c => decide (c < r)) [1, 2, 2.5, 5] = [1] := by
            simp [List.filter_cons, decide_eq_true_eq, h1, h2, h25, h5]
          rw [hf]
          norm_num [List.foldl, max_def]
        · have hf : List.filter (fun c => decide (c < r)) [1, 2, 2.5, 5] = [] := by
            simp [List.filter_cons, decide_eq_true_eq, h1, h2, h25, h5]
          rw [hf]
          norm_num [List.foldl, max_def]

/-- C7 as stated is false: at scale 16/3 the target gap is 30, pow is
10 and the ratio 3; the code's threshold scan yields step 25 (= 2.5 ×
10), while "the smallest candidate whose multiplier is ≥ the ratio"
would be 5 × 10 = 50. -/
theorem C7_counterexample :
    tickStep (16/3) = 25 ∧ specStepSmallestGE (16/3) = 50 ∧ (25:ℚ) ≠ 50 := by
  have hgap : MIN_TICK_GAP * (1 / (16/3 : ℚ)) = 30 := by norm_num [MIN_TICK_GAP]
  have hgap' : MIN_TICK_GAP / (16/3 : ℚ) = 30 := by norm_num [MIN_TICK_GAP]
  refine ⟨?_, ?_, by norm_num⟩
  · simp only [tickStep]
    rw [hgap, intLog_thirty, zpow_one]
    norm_num
  · simp only [specStepSmallestGE]
    rw [hgap', intLog_thirty, zpow_one]
    norm_num [specCandidates, List.find?]

/-- Witness for C7 at a concrete input. -/
theorem C7_witness : tickStep 1 = specStepLargestBelow 1 :=
  C7_tick_step_largest_below 1 (by norm_num)

/-! ### Claim C8 -/

theorem jsSearch_take_not {p : Char → Bool} :
    ∀ (cs : List Char) (i : ℕ), jsSearch p cs = some i →
      ∀ c ∈ cs.take i, p c = false := by
  intro cs
  induction cs with
  | nil => intro i h; simp [jsSearch] at h
  | cons c0 cs ih =>
    intro i h
    by_cases hp : p c0
    · simp [jsSearch, hp] at h
      subst h
      simp
    · cases hsearch : jsSearch p cs with
      | none => rw [jsSearch, if_neg hp, hsearch] at h; simp at h
      | some j =>
        rw [jsSearch, if_neg hp, hsearch] at h
        simp at h
        intro c hc
        rw [← h, List.take_succ_cons] at hc
        rcases List.mem_cons.1 hc with rfl | hmem
        · simpa using hp
        · exact ih j hsearch c hmem

theorem jsSearch_none_not {p : Char → Bool} :
    ∀ cs : List Char, jsSearch p cs = none → ∀ c ∈ cs, p c = false := by
  intro cs
  induction cs with
  | nil => intro _ c hc; simp at hc
  | cons c0 cs ih =>
    intro h c hc
    by_cases hp : p c0
    · simp [jsSearch, hp] at h
    · rw [jsSearch, if_neg hp] at h
      rcases List.mem_cons.1 hc with rfl | hmem
      · simpa using hp
      · exact ih (by simpa using h) c hmem

theorem strTrim_subset : ∀ cs : List Char, ∀ c ∈ strTrim cs, c ∈ cs := by
  intro cs c hc
  unfold strTrim at hc
  rw [List.mem_reverse] at hc
  have hc1 := (List.dropWhile_sublist _).subset hc
  rw [List.mem_reverse] at hc1
  exact (List.dropWhile_sublist _).subset hc1

/-- Amended C8: the copy-path menu action emits a `copyPath` request
carrying the right-clicked event's RAW detail string, and only when that
detail is non-empty (and a host handle exists); the receiving host-side
handler then cleans the path — truncating it at the first ':', '<' or
space and trimming whitespace — before writing it to the clipboard, so
the cleaned string contains none of those characters. -/
theorem C8_copy_path_raw_emit_host_clean :
    (∀ (ev : ProcessedEvent) (vscodeAvailable : Bool),
      onMenuCopyPath (some ev) vscodeAvailable =
        if ev.detail ≠ "" ∧ vscodeAvailable = true then
          some ⟨"copyPath", ev.detail⟩
        else none) ∧
    (∀ ev : ProcessedEvent, ev.detail ≠ "" →
      (onMenuCopyPath (some ev) true).bind copyPathHandler =
        some (copyPathClean ev.detail)) ∧
    (∀ s : String, ∀ c ∈ (copyPathClean s).toList, isCutChar c = false) := by
  refine ⟨fun ev avail => rfl, ?_, ?_⟩
  · intro ev hne
    simp [onMenuCopyPath, hne, copyPathHandler]
  · intro s c hc
    have hc' : c ∈ strTrim (match jsSearch isCutChar s.toList with
        | some i => s.toList.take i
        | none => s.toList) := hc
    have hc2 := strTrim_subset _ c hc'
    cases hsearch : jsSearch isCutChar s.toList with
    | none =>
      rw [hsearch] at hc2
      exact jsSearch_none_not s.toList hsearch c hc2
    | some i =>
      rw [hsearch] at hc2
      exact jsSearch_take_not s.toList i hsearch c hc2

/-- C8 as stated is false: the outbound request carries the raw detail
string "foo.cpp:10:5", not the cleaned "foo.cpp"; the cleaning happens
only in the host handler after the message is received. -/
theorem C8_counterexample :
    onMenuCopyPath (some pDetail) true = some ⟨"copyPath", "foo.cpp:10:5"⟩ ∧
    copyPathClean "foo.cpp:10:5" = "foo.cpp" ∧
    ("foo.cpp:10:5" : String) ≠ "foo.cpp" := by
  refine ⟨?_, by decide, by decide⟩
  simp [onMenuCopyPath, pDetail]

/-- Witness for C8 at a concrete input. -/
theorem C8_witness :
    (onMenuCopyPath (some pDetail) true).bind copyPathHandler =
      some (copyPathClean "foo.cpp:10:5") :=
  C8_copy_path_raw_emit_host_clean.2.1 pDetail (by decide)

/-! ### Claim C9 -/

/-- Amended C9: an empty dataset yields zero threads and maxTraceTime 0,
`resetView` is a no-op (it returns before touching any state) and
`render` draws no event bars and raises no error; `resetView` is a no-op
for every zero-extent dataset.  (The `render` call is not a full no-op:
it still paints the timeline ruler — see the counterexample.) -/
theorem C9_empty_dataset_graceful :
    (∀ (w : World) (cw ih : ℚ),
      (preprocess w []).threads = [] ∧
      (preprocess w []).maxTraceTime = 0 ∧
      resetView (preprocess w []) cw ih = preprocess w [] ∧
      renderBars (preprocess w []) = []) ∧
    (∀ (w : World) (cw ih : ℚ), w.maxTraceTime ≤ 0 → resetView w cw ih = w) := by
  constructor
  · intro w cw ih
    refine ⟨rfl, rfl, ?_, rfl⟩
    have h0 : (preprocess w []).maxTraceTime = 0 := rfl
    simp [resetView, h0]
  · intro w cw ih h
    simp [resetView, h]

/-- C9's "render is a no-op / nothing is drawn" is false: on the empty
dataset `render` still paints the ruler background (the head of the
timeline draw list is the background fill), and a zero-extent dataset
with an event at t = 0 still draws that event as a minimum-width bar. -/
theorem C9_counterexample :
    (renderTimeline (preprocess exWorld [])).head? =
      some (DrawCmd.fillRect 0 0 500 40) ∧
    (preprocess exWorld [xZero]).maxTraceTime = 0 ∧
    renderBars (preprocess exWorld [xZero]) = [⟨40, 114, 0.5, 23⟩] := by
  refine ⟨rfl, ?_, ?_⟩
  · norm_num [preprocess, ingest, stepEvent, ensureThread, pushLane, recLookup, recSet,
      initIngest, updateTotalHeight, eventKey, isSourceEvent, xZero, exWorld]
  · norm_num [renderBars, renderBarsAux, drawEvent, preprocess, ingest, stepEvent,
      ensureThread, pushLane, recLookup, recSet, initIngest, buildThreads, computeDepth,
      stableSort, stableInsert, jsSortLe, depthScan, updateTotalHeight, eventKey,
      isSourceEvent, xZero, exWorld, TIMELINE_HEIGHT, MARGIN_SIDE, max_def,
      List.filterMap_cons, List.filterMap_nil]

/-- Witness for C9 at a concrete input. -/
theorem C9_witness : resetView exWorld 800 600 = exWorld :=
  C9_empty_dataset_graceful.2 exWorld 800 600 (by norm_num [exWorld])

end ClangTracer
